import Mathlib

/-!
Verification of the dora JSON path-query library against its specification.

The development shallowly embeds the Go sources:
- `pkg/ast` (the version used by the query client, carrying `GoType`):
  `Value`, `Object`, `Array` (here `Arr`), `Property`, `Literal`, `Identifier`.
- `pkg/dora`: `validateQueryRoot`, `prepareQuery`, `executeQuery`,
  `setFinalValue`, `setResultFromValue`, `GetObject`/`GoType`.
- `pkg/merge`: `stripWhiteSpace` over `StructuralItem` from the
  structure-preserving `pkg/ast` variant.

Go runtime faults (out-of-range index or slice) are modelled as distinct
error constructors, clearly separated from the error values the Go code
returns to its caller: the Go code crashes at those points, it does not
return an error.
-/

namespace Dora

/-- The dynamic (interface-typed) payload of an `ast.Literal`: in the Go
source `Literal.Value` holds one of `string`, `float64`, `int`, `bool`
or `nil` (the cases its `String()` method switches on). `float64` is
modelled by a rational number. -/
inductive GoValue where
  | str : String → GoValue
  | float : Rat → GoValue
  | int : Int → GoValue
  | bool : Bool → GoValue
  | null : GoValue
deriving DecidableEq, Repr

/-- `ast.Literal`: a JSON literal holding its decoded dynamic value. The
constant `Type` tag field of the Go struct is omitted. -/
structure Literal where
  value : GoValue
deriving DecidableEq, Repr

mutual
/-- `ast.Value`: the interface implemented by objects, arrays and literals.
The Go parser only ever places these three shapes in the tree (the
`Property`/`Identifier` implementations never occur as child values), so the
model closes the interface over them. -/
inductive Value where
  | obj : Object → Value
  | arr : Arr → Value
  | lit : Literal → Value
/-- `ast.Object`: children (a list of properties), and the `[Start, End)`
byte span into the source buffer. The `sourceBuf` pointer of the Go struct
always aims at the single client input buffer, so it is passed explicitly
to the functions that slice it. -/
inductive Object where
  | mk : List Property → Nat → Nat → Object
/-- `ast.Array`: children and the `[Start, End)` byte span. -/
inductive Arr where
  | mk : List Value → Nat → Nat → Arr
/-- `ast.Property`: the key (an `ast.Identifier`, reduced to its decoded
string `Value` field) together with the property's value. -/
inductive Property where
  | mk : String → Value → Property
end

/-- `Object.Children`. -/
def Object.children : Object → List Property
  | .mk cs _ _ => cs

/-- `Object.Start`. -/
def Object.start : Object → Nat
  | .mk _ s _ => s

/-- `Object.End`. -/
def Object.stop : Object → Nat
  | .mk _ _ e => e

/-- `Array.Children`. -/
def Arr.children : Arr → List Value
  | .mk cs _ _ => cs

/-- `Array.Start`. -/
def Arr.start : Arr → Nat
  | .mk _ s _ => s

/-- `Array.End`. -/
def Arr.stop : Arr → Nat
  | .mk _ _ e => e

/-- `Property.Key.Value`: the decoded key string. -/
def Property.key : Property → String
  | .mk k _ => k

/-- `Property.Value`. -/
def Property.value : Property → Value
  | .mk _ v => v

/-- Whether an `ast.Value` is a literal. -/
def Value.isLit : Value → Bool
  | .lit _ => true
  | _ => false

/-- `ast.RootNodeType`: `ObjectRoot` or `ArrayRoot`. -/
inductive RootNodeType where
  | objectRoot
  | arrayRoot
deriving DecidableEq, Repr

/-- `ast.Type`: the value-kind tags. The executor's cursor variable
`currentType` only ever holds `objectType` or `arrayType`. -/
inductive AstType where
  | objectType
  | arrayType
  | literalType
  | propertyType
  | identifierType
deriving DecidableEq, Repr

/-- The two query access kinds, `ObjectAccess` and `ArrayAccess`. -/
inductive AccessType where
  | objectAccess
  | arrayAccess
deriving DecidableEq, Repr

/-- Modelled from the spec: the compiled query token (`queryToken`) built by
the query scanner, whose Go source file is not part of the available
sources. Its shape is fixed by its uses in `executeQuery`/`setFinalValue`:
a tag `accessType` plus payload fields `key` (object-key access) and
`index` (array-index access); the field not selected by the tag keeps its
Go zero value (`""` / `0`). The spec's grammar `[n]` only produces
non-negative indices, so `index` is a `Nat`. -/
structure QueryToken where
  accessType : AccessType
  key : String
  index : Nat
deriving DecidableEq, Repr

/-- Errors (and runtime faults) produced while preparing a query.
`errNoDollarSignRoot`, `errWrongObjectRootSelector` and
`errWrongArrayRootSelector` are the package-level error values of
`pkg/dora`; `stringIndexOutOfRange i n` models the Go runtime fault raised
by `query[i]` on a string of length `n ≤ i` — the process crashes there,
no error value is returned. `scanError` stands for whatever error the
(unavailable) query scanner returns. -/
inductive PrepError where
  | errNoDollarSignRoot
  | errWrongObjectRootSelector
  | errWrongArrayRootSelector
  | stringIndexOutOfRange (idx len : Nat)
  | scanError (msg : String)
deriving DecidableEq, Repr

/-- Errors (and runtime faults) produced while executing a query.
The first four embed the `errors.New`/`fmt.Errorf` values returned by
`executeQuery`; `indexOutOfRange i n` and `sliceOutOfRange a b n` model Go
runtime faults (unchecked `arr.Children[i]` indexing and `input[a:b]`
slicing) — the Go process crashes at those points instead of returning. -/
inductive ExecError where
  | askedForObjectFoundArray
  | askedForArrayFoundObject
  | keyNotFound (key : String)
  | unexpectedLiteral
  | indexOutOfRange (idx len : Nat)
  | sliceOutOfRange (start stop len : Nat)
deriving DecidableEq, Repr

/-- `validateQueryRoot` (pkg/dora): checks that the query starts with `$`
and that the second character matches the root-node type. `query[0]` and
`query[1]` are unchecked Go string indexings: on a too-short query the Go
code crashes, modelled by `stringIndexOutOfRange`. Exactly as in the
source, `query[1]` is read before either root-type comparison. -/
def validateQueryRoot (query : List Char) (rootNodeType : RootNodeType) :
    Except PrepError Unit :=
  match query.get? 0 with
  | none => .error (.stringIndexOutOfRange 0 query.length)
  | some c0 =>
    if c0 ≠ '$' then .error .errNoDollarSignRoot
    else
      match query.get? 1 with
      | none => .error (.stringIndexOutOfRange 1 query.length)
      | some c1 =>
        if rootNodeType = .objectRoot ∧ ¬(c1 = '.') then
          .error .errWrongObjectRootSelector
        else if rootNodeType = .arrayRoot ∧ ¬(c1 = '[') then
          .error .errWrongArrayRootSelector
        else .ok ()

/-- `prepareQuery` (pkg/dora): validates the query root, then scans the
query into tokens. The scanner `scanQueryTokens` lives in a source file
that is not available, so it is a parameter; every theorem stated about
`prepareQuery` holds for an arbitrary scanner. -/
def prepareQuery (scan : List Char → Except PrepError (List QueryToken))
    (query : List Char) (rootNodeType : RootNodeType) :
    Except PrepError (List QueryToken) :=
  match validateQueryRoot query rootNodeType with
  | .error e => .error e
  | .ok _ => scan query

/-- Renders a natural number as exactly six decimal digits (left-padded
with zeros): the fractional part of Go's `%f` formatting. -/
def sixDigits (n : Nat) : String :=
  let s := toString n
  String.mk (List.replicate (6 - s.length) '0') ++ s

/-- Models `fmt.Sprintf("%f", x)` (Go standard library, not part of this
repository) on the rational model of `float64`: sign, integer part, and six
fractional digits obtained by rounding `|x| * 10^6` to the nearest integer. -/
def fmtFloat (q : Rat) : String :=
  let scaled : Nat := (|q| * 1000000 + 1 / 2).floor.toNat
  (if q < 0 then "-" else "") ++ toString (scaled / 1000000) ++ "." ++
    sixDigits (scaled % 1000000)

/-- `ast.Literal.String()`: the canonical textual rendering of the decoded
literal value (`fmt.Sprintf` / `strconv.Itoa` per dynamic type). The
`default` arm of the Go switch is unreachable for the closed `GoValue`. -/
def litString (l : Literal) : String :=
  match l.value with
  | .str s => s
  | .float q => fmtFloat q
  | .int n => toString n
  | .bool b => if b then "true" else "false"
  | .null => "null"

/-- Models a Go slice expression `input[a:b]` over the source buffer:
in range it yields the bytes `[a, b)`, out of range the Go runtime
crashes, modelled by the `sliceOutOfRange` fault. -/
def goSlice (input : List Char) (a b : Nat) : Except ExecError (List Char) :=
  if a ≤ b ∧ b ≤ input.length then .ok ((input.drop a).take (b - a))
  else .error (.sliceOutOfRange a b input.length)

/-- The executor's mutable state: the cursor variables `obj`, `arr` and
`currentType` of `executeQuery`, together with the `result` and
`resultValue` fields of the `Client` (initially `""` and unset). -/
structure ExecState where
  obj : Object
  arr : Arr
  currentType : AstType
  result : String
  resultValue : Option Value

/-- `setResultFromValue` (pkg/dora): stores the terminal value on the
client and renders its string form — a literal by `Literal.String()`, an
object by slicing `c.input[val.Start:val.End]`, an array by
`Array.String()`, which slices the same source buffer. -/
def setResultFromValue (input : List Char) (value : Value) (st : ExecState) :
    Except ExecError ExecState :=
  let st := { st with resultValue := some value }
  match value with
  | .lit l => .ok { st with result := litString l }
  | .obj o =>
    match goSlice input o.start o.stop with
    | .error e => .error e
    | .ok s => .ok { st with result := String.mk s }
  | .arr a =>
    match goSlice input a.start a.stop with
    | .error e => .error e
    | .ok s => .ok { st with result := String.mk s }

/-- `setFinalValue` (pkg/dora): on the final query token, resolve the
result from the current cursor. Object cursor: first property whose key
equals the token's key (no action when none matches). Any other cursor:
`arr.Children[ind]` — an unchecked indexing that crashes when the index is
out of range, modelled by `indexOutOfRange`. -/
def setFinalValue (input : List Char) (t : QueryToken) (st : ExecState) :
    Except ExecError ExecState :=
  if st.currentType = .objectType then
    match st.obj.children.find? (fun v => decide (t.key = v.key)) with
    | some v => setResultFromValue input v.value st
    | none => .ok st
  else
    match st.arr.children[t.index]? with
    | none => .error (.indexOutOfRange t.index st.arr.children.length)
    | some v => setResultFromValue input v st

/-- The object-key scan inside `executeQuery` (pkg/dora): range over the
object's properties; on a key match set `found`, and if the matched value
is an object or array, update the cursor and break. A matched literal sets
`found` but does not break, so the scan keeps looking for a later match
holding a container. Returns the `found` flag and the cursor update. -/
def objScan (key : String) : List Property → Bool × Option (Object ⊕ Arr)
  | [] => (false, none)
  | v :: rest =>
    if v.key = key then
      match v.value with
      | .obj o => (true, some (.inl o))
      | .arr a => (true, some (.inr a))
      | .lit _ => (true, (objScan key rest).2)
    else objScan key rest

/-- One iteration of the `executeQuery` loop body (pkg/dora), on the token
`t` with `isLast` true exactly on the final iteration: either the error the
Go code returns there (or the runtime fault it crashes with), or the state
the next iteration starts from. On the final token `setFinalValue` runs
first, before the branch dispatch and its type checks. Object access
requires an object cursor (else the "asked for an object but found array"
error), then runs the key scan, failing with the key-not-found error when
no key matched. Array access requires an array cursor (else the "asked for
an array but found object" error), then reads `arr.Children[qt.index]` —
unchecked, a crash when out of range — and narrows, a non-final literal
child being the "query isn't quite right" error and a final one being
stored as the result. -/
def execStep (input : List Char) (t : QueryToken) (isLast : Bool)
    (st : ExecState) : Except ExecError ExecState :=
  match (if isLast then setFinalValue input t st else .ok st) with
  | .error e => .error e
  | .ok st1 =>
    match t.accessType with
    | .objectAccess =>
      if st1.currentType = .objectType then
        match objScan t.key st1.obj.children with
        | (false, _) => .error (.keyNotFound t.key)
        | (true, none) => .ok st1
        | (true, some (.inl o)) =>
          .ok { st1 with obj := o, currentType := .objectType }
        | (true, some (.inr a)) =>
          .ok { st1 with arr := a, currentType := .arrayType }
      else .error .askedForObjectFoundArray
    | .arrayAccess =>
      if st1.currentType = .arrayType then
        match st1.arr.children[t.index]? with
        | none => .error (.indexOutOfRange t.index st1.arr.children.length)
        | some (.obj o) => .ok { st1 with obj := o, currentType := .objectType }
        | some (.arr a) => .ok { st1 with arr := a, currentType := .arrayType }
        | some (.lit l) =>
          if isLast then setResultFromValue input (.lit l) st1
          else .error .unexpectedLiteral
      else .error .askedForArrayFoundObject

/-- The `for i := 0; i < parsedQueryLen; i++` loop of `executeQuery`
(pkg/dora): run the body on each remaining token (the final iteration is
the one whose tail is empty), stopping at the first returned error or
fault. -/
def execLoop (input : List Char) :
    List QueryToken → ExecState → Except ExecError ExecState
  | [], st => .ok st
  | t :: rest, st =>
    match execStep input t rest.isEmpty st with
    | .error e => .error e
    | .ok st1 => execLoop input rest st1

/-- `executeQuery` (pkg/dora): initialize the cursor from the root value —
`obj, _ := rootVal.(ast.Object)` and `arr, ok := rootVal.(ast.Array)` leave
the Go zero value in the variable whose assertion fails — with
`currentType` starting at `ObjectType` unless the root is an array, then
run the token loop. -/
def initState (rootValue : Value) : ExecState :=
  ⟨match rootValue with | .obj o => o | _ => Object.mk [] 0 0,
   match rootValue with | .arr a => a | _ => Arr.mk [] 0 0,
   match rootValue with | .arr _ => .arrayType | _ => .objectType,
   "", none⟩

def executeQuery (input : List Char) (rootValue : Value)
    (parsedQuery : List QueryToken) : Except ExecError ExecState :=
  execLoop input parsedQuery (initState rootValue)

/-- The string result a caller observes from a successful `executeQuery`
(the client's `result` field), `none` on error. -/
def execResult (x : Except ExecError ExecState) : Option String :=
  match x with
  | .ok st => some st.result
  | .error _ => none

/-- The generic Go representation produced by `GoType()`: a native scalar
(`interface{}` holding the literal's value), a `[]interface{}`, or a
`map[string]interface{}` (modelled as an association list whose keys are
kept distinct by the insertion operation below). -/
inductive GType where
  | prim : GoValue → GType
  | arrT : List GType → GType
  | mapT : List (String × GType) → GType

/-- Go map assignment `m[k] = v` on the association-list model: replace the
binding when the key is present, append otherwise. -/
def mapInsert : List (String × GType) → String → GType → List (String × GType)
  | [], k, v => [(k, v)]
  | (k1, v1) :: rest, k, v =>
    if k1 = k then (k1, v) :: rest else (k1, v1) :: mapInsert rest k v

/-- The loop of `Object.GoType()`: `result[property.Key.String()] =
property.Value.GoType()` over the children in order, starting from the
empty map. -/
def buildMap (ps : List (String × GType)) : List (String × GType) :=
  ps.foldl (fun m p => mapInsert m p.1 p.2) []

mutual
/-- `GoType()` on an `ast.Value` (dispatch over the dynamic type). -/
def valueGoType : Value → GType
  | .obj o => objectGoType o
  | .arr a => arrGoType a
  | .lit l => GType.prim l.value
/-- `Object.GoType()` (pkg/ast): a `map[string]interface{}` built by
assigning each property's converted value under its key, in child order. -/
def objectGoType : Object → GType
  | .mk cs _ _ => .mapT (buildMap (propsGoType cs))
/-- `Array.GoType()` (pkg/ast): the ordered slice of the children's
conversions. -/
def arrGoType : Arr → GType
  | .mk cs _ _ => .arrT (valuesGoType cs)
/-- The per-property conversions, in order: key paired with
`property.Value.GoType()`. -/
def propsGoType : List Property → List (String × GType)
  | [] => []
  | .mk k v :: rest => (k, valueGoType v) :: propsGoType rest
/-- Pointwise `GoType()` over a list of values, in order. -/
def valuesGoType : List Value → List GType
  | [] => []
  | v :: rest => valueGoType v :: valuesGoType rest
end

/-- `ast.StructuralItemType` (the structure-preserving `pkg/ast` variant
used by the merge feature). -/
inductive StructuralItemType where
  | whitespaceItem
  | lineCommentItem
  | blockCommentItem
deriving DecidableEq, Repr

/-- `ast.StructuralItem`: a captured whitespace run or comment. -/
structure StructuralItem where
  itemType : StructuralItemType
  value : String
deriving DecidableEq, Repr

/-- The for-loop inside `stripWhiteSpace` (pkg/merge): scan from the end of
the list for the last item that is not whitespace. The Go loop clause
declares its own `lastNonWhitespaceIndex`, so the index it computes — the
value returned here — is discarded by the enclosing function. Scanning
downward from `len-1`, `i` is the loop variable recast to `Int` (it ends
at `-1` when every item is whitespace). -/
def stripWhiteSpaceScan (structuralItems : List StructuralItem) : Int :=
  let rec go (i : Int) : Int :=
    if _h : 0 ≤ i ∧ i < structuralItems.length then
      match structuralItems.get? i.toNat with
      | some item =>
        if item.itemType ≠ .whitespaceItem then i else go (i - 1)
      | none => i
    else i
  termination_by (i + 1).toNat
  decreasing_by omega
  go (structuralItems.length - 1)

/-- `stripWhiteSpace` (pkg/merge): intended to drop trailing whitespace
items. The function-level `lastNonWhitespaceIndex` is a distinct variable
from the loop-local one (the loop clause shadows it), so it keeps its zero
value and the returned slice is `structuralItems[0:0]`. -/
def stripWhiteSpace (structuralItems : List StructuralItem) :
    List StructuralItem :=
  let lastNonWhitespaceIndex : Nat := 0
  let _shadowedScan := stripWhiteSpaceScan structuralItems
  structuralItems.take lastNonWhitespaceIndex

/-- The Result Projector's string form, in the spec's words: for a
container, the verbatim `[start, end)` slice of the original buffer; for a
literal, the canonical textual rendering. Stated separately from
`setResultFromValue` so the executor can be compared against it. -/
def render (input : List Char) : Value → String
  | .lit l => litString l
  | .obj o => String.mk ((input.drop o.start).take (o.stop - o.start))
  | .arr a => String.mk ((input.drop a.start).take (a.stop - a.start))

/-- The cursor update a value induces in the executor's object-key scan:
containers narrow the cursor, literals do not. -/
def containerOf : Value → Option (Object ⊕ Arr)
  | .obj o => some (.inl o)
  | .arr a => some (.inr a)
  | .lit _ => none

lemma objScan_of_no_match (k : String) (l : List Property)
    (h : ∀ p ∈ l, p.key ≠ k) : objScan k l = (false, none) := by
  induction l with
  | nil => rfl
  | cons p rest ih =>
    have hp : p.key ≠ k := h p (List.mem_cons_self p rest)
    rw [objScan, if_neg hp]
    exact ih fun q hq => h q (List.mem_cons_of_mem p hq)

lemma objScan_snd_of_lit_matches (k : String) (l : List Property)
    (h : ∀ p ∈ l, p.key = k → p.value.isLit = true) :
    (objScan k l).2 = none := by
  induction l with
  | nil => rfl
  | cons p rest ih =>
    have ih2 := ih fun q hq => h q (List.mem_cons_of_mem p hq)
    by_cases hk : p.key = k
    · have hlit := h p (List.mem_cons_self p rest) hk
      match hval : p.value with
      | .lit l0 => rw [objScan, if_pos hk, hval]; exact ih2
      | .obj o => rw [hval] at hlit; simp [Value.isLit] at hlit
      | .arr a => rw [hval] at hlit; simp [Value.isLit] at hlit
    · rw [objScan, if_neg hk]; exact ih2

lemma objScan_fst_of_match (k : String) (l : List Property)
    (h : ∃ p ∈ l, p.key = k) : (objScan k l).1 = true := by
  induction l with
  | nil => simp at h
  | cons p rest ih =>
    by_cases hk : p.key = k
    · rw [objScan, if_pos hk]
      match p.value with
      | .lit _ => rfl
      | .obj _ => rfl
      | .arr _ => rfl
    · rw [objScan, if_neg hk]
      rcases h with ⟨q, hq, hqk⟩
      rcases List.mem_cons.mp hq with rfl | hq'
      · exact absurd hqk hk
      · exact ih ⟨q, hq', hqk⟩

lemma objScan_of_only_lit_matches (k : String) (l : List Property)
    (hex : ∃ p ∈ l, p.key = k)
    (hlit : ∀ p ∈ l, p.key = k → p.value.isLit = true) :
    objScan k l = (true, none) := by
  have h1 := objScan_fst_of_match k l hex
  have h2 := objScan_snd_of_lit_matches k l hlit
  exact Prod.ext h1 h2

lemma find?_key_eq_none (k : String) (l : List Property)
    (h : ∀ p ∈ l, p.key ≠ k) :
    l.find? (fun v => decide (k = v.key)) = none := by
  rw [List.find?_eq_none]
  intro p hp
  simp only [decide_eq_true_eq]
  exact fun hk => h p hp hk.symm

/-- Claim C7: for every object-key-access step where no property key in the
cursor object equals the requested key, query execution fails with the
key-not-found error naming the offending key — whether the step is final
(after `setFinalValue` finds nothing and leaves the state unchanged) or
not. -/
theorem claim_C7_key_not_found (input : List Char) (t : QueryToken)
    (rest : List QueryToken) (st : ExecState)
    (hacc : t.accessType = .objectAccess)
    (hcur : st.currentType = .objectType)
    (hkeys : ∀ p ∈ st.obj.children, p.key ≠ t.key) :
    execLoop input (t :: rest) st = .error (.keyNotFound t.key) := by
  have hscan := objScan_of_no_match t.key st.obj.children hkeys
  have hfin : setFinalValue input t st = .ok st := by
    rw [setFinalValue, if_pos hcur, find?_key_eq_none t.key st.obj.children hkeys]
  have hstep : execStep input t rest.isEmpty st = .error (.keyNotFound t.key) := by
    cases rest with
    | nil =>
      rw [execStep]
      simp only [List.isEmpty_nil, if_true, hfin, hacc, hcur, if_pos, hscan]
    | cons t2 rest2 =>
      rw [execStep]
      simp only [List.isEmpty_cons, Bool.false_eq_true, if_false, hacc, hcur,
        if_pos, hscan]
  rw [execLoop, hstep]

/-- Witness for claim C7 at a concrete input: querying the object
`{"a": 1}` for the absent key `"zz"` yields the key-not-found
error. -/
theorem claim_C7_witness :
    execLoop [] [⟨.objectAccess, "zz", 0⟩]
      ⟨Object.mk [Property.mk "a" (.lit ⟨.int 1⟩)] 0 7, Arr.mk [] 0 0,
        .objectType, "", none⟩ = .error (.keyNotFound "zz") :=
  claim_C7_key_not_found [] ⟨.objectAccess, "zz", 0⟩ []
    ⟨Object.mk [Property.mk "a" (.lit ⟨.int 1⟩)] 0 7, Arr.mk [] 0 0,
      .objectType, "", none⟩
    rfl rfl (by intro p hp; simp [Object.children] at hp; rw [hp]; decide)

/-- Claim C1 is violated by the code: applying an array-index-access token
whose index is not below the array cursor's length does not return an
IndexOutOfBounds error — `executeQuery` and `setFinalValue` index
`arr.Children` without a bounds check, so the Go runtime crashes. Left
conjunct: final position (`$.someArray[2]` on
`{"someArray": ["some", "values"]}`, the spec's own example, faults
inside `setFinalValue`). Right conjunct: non-final position (`$[5].x` on
`["a", "b"]` faults inside the loop). `indexOutOfRange` models the Go
runtime fault, not a returned error value. -/
theorem claim_C1_index_overflow_crashes :
    executeQuery []
        (.obj (Object.mk
          [Property.mk "someArray"
            (.arr (Arr.mk [.lit ⟨.str "some"⟩, .lit ⟨.str "values"⟩] 14 31))]
          0 33))
        [⟨.objectAccess, "someArray", 0⟩, ⟨.arrayAccess, "", 2⟩]
      = .error (.indexOutOfRange 2 2)
    ∧ executeQuery []
        (.arr (Arr.mk [.lit ⟨.str "a"⟩, .lit ⟨.str "b"⟩] 0 9))
        [⟨.arrayAccess, "", 5⟩, ⟨.objectAccess, "x", 0⟩]
      = .error (.indexOutOfRange 5 2) :=
  ⟨rfl, rfl⟩

/-- Claim C2 is violated by the code: `validateQueryRoot` reads `query[0]`
before any length check, so on the empty query string the process crashes
(the `stringIndexOutOfRange` runtime fault) instead of returning the
MissingRootSelector error — for either root type, and through
`prepareQuery` for any scanner. Final conjunct: on a non-empty query whose
first character is not `$` the claimed error value is indeed returned. -/
theorem claim_C2_empty_query_crashes :
    validateQueryRoot [] .objectRoot = .error (.stringIndexOutOfRange 0 0)
    ∧ validateQueryRoot [] .arrayRoot = .error (.stringIndexOutOfRange 0 0)
    ∧ prepareQuery (fun _ => .ok []) [] .objectRoot
        = .error (.stringIndexOutOfRange 0 0)
    ∧ validateQueryRoot ['x'] .objectRoot = .error .errNoDollarSignRoot :=
  ⟨rfl, rfl, rfl, rfl⟩

/-- Claim C5 is violated by the code in one corner: on a final
object-key-access token with an array cursor, `setFinalValue` runs before
the type check and indexes `arr.Children` at the token's zero index
payload, so on the empty-array cursor of `$[0].x` against `[[]]` the Go
runtime crashes instead of returning the TypeMismatch error (left
conjunct). The other two conjuncts show the TypeMismatch errors the claim
describes are returned in non-final positions: an object-key access on an
array cursor and an array-index access on an object cursor. -/
theorem claim_C5_final_type_mismatch_crashes :
    executeQuery [] (.arr (Arr.mk [.arr (Arr.mk [] 1 3)] 0 4))
        [⟨.arrayAccess, "", 0⟩, ⟨.objectAccess, "x", 0⟩]
      = .error (.indexOutOfRange 0 0)
    ∧ executeQuery [] (.arr (Arr.mk [.lit ⟨.str "a"⟩] 0 5))
        [⟨.objectAccess, "k", 0⟩, ⟨.objectAccess, "j", 0⟩]
      = .error .askedForObjectFoundArray
    ∧ executeQuery []
        (.obj (Object.mk [Property.mk "a" (.lit ⟨.int 1⟩)] 0 7))
        [⟨.arrayAccess, "", 0⟩, ⟨.objectAccess, "j", 0⟩]
      = .error .askedForArrayFoundObject :=
  ⟨rfl, rfl, rfl⟩

/-- Claim C3 is violated by the code for object-key-access tokens: on the
tree `{"a": 1, "b": 2}` the query `$.a.b` resolves its non-final
first token to the literal `1`, yet execution does not fail with the
UnexpectedLiteral error — the matched literal does not break the scan or
change the cursor, traversal silently continues from the unchanged root
cursor, and the query even succeeds with result `"2"`. -/
theorem claim_C3_counterexample :
    execResult (executeQuery []
        (.obj (Object.mk
          [Property.mk "a" (.lit ⟨.int 1⟩), Property.mk "b" (.lit ⟨.int 2⟩)]
          0 13))
        [⟨.objectAccess, "a", 0⟩, ⟨.objectAccess, "b", 0⟩])
      = some "2"
    ∧ executeQuery []
        (.obj (Object.mk
          [Property.mk "a" (.lit ⟨.int 1⟩), Property.mk "b" (.lit ⟨.int 2⟩)]
          0 13))
        [⟨.objectAccess, "a", 0⟩, ⟨.objectAccess, "b", 0⟩]
      ≠ .error .unexpectedLiteral := by
  constructor
  · rfl
  · intro h
    have : execResult (Except.error (ExecError.unexpectedLiteral)
        : Except ExecError ExecState) = some "2" := by
      rw [← h]; rfl
    simp [execResult] at this

/-- Claim C3 amended: only an array-index-access token that resolves to a
literal in a non-final position fails with the UnexpectedLiteral error
(left conjunct); an object-key-access token in a non-final position whose
key matches only literal-valued properties returns no error at all — the
scan leaves the cursor, result and the whole state unchanged and traversal
silently continues with the remaining tokens (right conjunct). -/
theorem claim_C3_amended :
    (∀ (input : List Char) (t : QueryToken) (rest : List QueryToken)
        (st : ExecState) (l : Literal),
      rest ≠ [] → t.accessType = .arrayAccess → st.currentType = .arrayType →
      st.arr.children[t.index]? = some (.lit l) →
      execLoop input (t :: rest) st = .error .unexpectedLiteral)
    ∧ (∀ (input : List Char) (t : QueryToken) (rest : List QueryToken)
        (st : ExecState),
      rest ≠ [] → t.accessType = .objectAccess → st.currentType = .objectType →
      (∃ p ∈ st.obj.children, p.key = t.key) →
      (∀ p ∈ st.obj.children, p.key = t.key → p.value.isLit = true) →
      execLoop input (t :: rest) st = execLoop input rest st) := by
  constructor
  · intro input t rest st l hne hacc hcur hget
    have hempty : rest.isEmpty = false := by
      cases rest with
      | nil => exact absurd rfl hne
      | cons a b => rfl
    have hstep : execStep input t rest.isEmpty st = .error .unexpectedLiteral := by
      rw [execStep, hempty]
      simp only [Bool.false_eq_true, if_false, hacc, hcur, if_pos, hget]
    rw [execLoop, hstep]
  · intro input t rest st hne hacc hcur hex hlit
    have hempty : rest.isEmpty = false := by
      cases rest with
      | nil => exact absurd rfl hne
      | cons a b => rfl
    have hscan := objScan_of_only_lit_matches t.key st.obj.children hex hlit
    have hstep : execStep input t rest.isEmpty st = .ok st := by
      rw [execStep, hempty]
      simp only [Bool.false_eq_true, if_false, hacc, hcur, if_pos, hscan]
    rw [execLoop, hstep]

/-- Witness for the amended claim C3 at concrete inputs: on `["x", 2]` the
non-final array index 1 hits the literal `2` and errors with the
"query isn't quite right" error; on `{"a": 1}` the non-final key
`"a"` matches only a literal and execution continues unchanged into the
remaining tokens. -/
theorem claim_C3_amended_witness :
    execLoop [] [⟨.arrayAccess, "", 1⟩, ⟨.objectAccess, "b", 0⟩]
        ⟨Object.mk [] 0 0, Arr.mk [.lit ⟨.str "x"⟩, .lit ⟨.int 2⟩] 0 8,
          .arrayType, "", none⟩
      = .error .unexpectedLiteral
    ∧ execLoop [] [⟨.objectAccess, "a", 0⟩, ⟨.objectAccess, "b", 0⟩]
        ⟨Object.mk [Property.mk "a" (.lit ⟨.int 1⟩)] 0 7, Arr.mk [] 0 0,
          .objectType, "", none⟩
      = execLoop [] [⟨.objectAccess, "b", 0⟩]
        ⟨Object.mk [Property.mk "a" (.lit ⟨.int 1⟩)] 0 7, Arr.mk [] 0 0,
          .objectType, "", none⟩ := by
  constructor
  · exact claim_C3_amended.1 [] ⟨.arrayAccess, "", 1⟩ [⟨.objectAccess, "b", 0⟩]
      ⟨Object.mk [] 0 0, Arr.mk [.lit ⟨.str "x"⟩, .lit ⟨.int 2⟩] 0 8,
        .arrayType, "", none⟩ ⟨.int 2⟩
      (by simp) rfl rfl rfl
  · exact claim_C3_amended.2 [] ⟨.objectAccess, "a", 0⟩ [⟨.objectAccess, "b", 0⟩]
      ⟨Object.mk [Property.mk "a" (.lit ⟨.int 1⟩)] 0 7, Arr.mk [] 0 0,
        .objectType, "", none⟩
      (by simp) rfl rfl
      ⟨Property.mk "a" (.lit ⟨.int 1⟩), by simp [Object.children], rfl⟩
      (by intro p hp; simp [Object.children] at hp; rw [hp]; intro; rfl)

/-- Claim C6 is violated by the code: on the duplicate-keyed object
`{"k": 1, "k": {"a": 2}}` the query `$.k.a` succeeds with
result `"2"`, which lives inside the SECOND property named `"k"` — the
non-final key lookup skips the first, literal-valued duplicate (a matched
literal does not break the scan), so a later duplicate-keyed property is
reachable, contradicting first-match-only reachability. -/
theorem claim_C6_counterexample :
    execResult (executeQuery []
        (.obj (Object.mk
          [Property.mk "k" (.lit ⟨.int 1⟩),
           Property.mk "k"
             (.obj (Object.mk [Property.mk "a" (.lit ⟨.int 2⟩)] 9 18))]
          0 19))
        [⟨.objectAccess, "k", 0⟩, ⟨.objectAccess, "a", 0⟩])
      = some "2" := rfl

/-- Claim C6 amended: on the final token, object-key lookup resolves to the
first property in declaration order whose key equals the requested key
(left conjunct, `setFinalValue`); on non-final tokens the cursor narrows to
the first key-equal property whose value is an object or array, skipping
key-equal properties that hold literals — the scan's found flag is any
key equality — so a later duplicate can be reached when every earlier
duplicate holds a literal (right conjunct, the executor's scan,
characterized exactly). -/
theorem claim_C6_amended :
    (∀ (input : List Char) (t : QueryToken) (st : ExecState) (p : Property),
      st.currentType = .objectType →
      st.obj.children.find? (fun v => decide (t.key = v.key)) = some p →
      setFinalValue input t st = setResultFromValue input p.value st)
    ∧ (∀ (k : String) (l : List Property),
      objScan k l =
        (l.any (fun p => decide (p.key = k)),
         (l.find? (fun p => decide (p.key = k) && !p.value.isLit)).bind
           (fun p => containerOf p.value))) := by
  constructor
  · intro input t st p hcur hfind
    rw [setFinalValue, if_pos hcur, hfind]
  · intro k l
    induction l with
    | nil => rfl
    | cons p rest ih =>
      obtain ⟨pk, pv⟩ := p
      by_cases hk : pk = k
      · cases pv with
        | obj o =>
          simp [objScan, Property.key, Property.value, Value.isLit, containerOf,
            hk, List.find?_cons_of_pos, List.find?_cons_of_neg]
        | arr a =>
          simp [objScan, Property.key, Property.value, Value.isLit, containerOf,
            hk, List.find?_cons_of_pos, List.find?_cons_of_neg]
        | lit l0 =>
          simp [objScan, Property.key, Property.value, Value.isLit, containerOf,
            hk, List.find?_cons_of_pos, List.find?_cons_of_neg]
          exact congrArg Prod.snd ih
      · simp [objScan, Property.key, Property.value, hk,
          List.find?_cons_of_neg]
        exact ih

/-- Witness for the amended claim C6 at a concrete input: on the
duplicate-keyed object `{"k": 1, "k": {}}`, the final-token
lookup resolves to the first duplicate (the literal `1`), while the
non-final scan reports found and narrows to the second duplicate (the
object). -/
theorem claim_C6_amended_witness :
    setFinalValue []
        ⟨.objectAccess, "k", 0⟩
        ⟨Object.mk [Property.mk "k" (.lit ⟨.int 1⟩),
                    Property.mk "k" (.obj (Object.mk [] 9 11))] 0 12,
          Arr.mk [] 0 0, .objectType, "", none⟩
      = setResultFromValue [] (.lit ⟨.int 1⟩)
        ⟨Object.mk [Property.mk "k" (.lit ⟨.int 1⟩),
                    Property.mk "k" (.obj (Object.mk [] 9 11))] 0 12,
          Arr.mk [] 0 0, .objectType, "", none⟩
    ∧ objScan "k" [Property.mk "k" (.lit ⟨.int 1⟩),
                   Property.mk "k" (.obj (Object.mk [] 9 11))]
      = ([Property.mk "k" (.lit ⟨.int 1⟩),
          Property.mk "k" (.obj (Object.mk [] 9 11))].any
            (fun p => decide (p.key = "k")),
         ([Property.mk "k" (.lit ⟨.int 1⟩),
           Property.mk "k" (.obj (Object.mk [] 9 11))].find?
             (fun p => decide (p.key = "k") && !p.value.isLit)).bind
           (fun p => containerOf p.value)) := by
  constructor
  · exact claim_C6_amended.1 [] ⟨.objectAccess, "k", 0⟩
      ⟨Object.mk [Property.mk "k" (.lit ⟨.int 1⟩),
                  Property.mk "k" (.obj (Object.mk [] 9 11))] 0 12,
        Arr.mk [] 0 0, .objectType, "", none⟩
      (Property.mk "k" (.lit ⟨.int 1⟩)) rfl rfl
  · exact claim_C6_amended.2 "k"
      [Property.mk "k" (.lit ⟨.int 1⟩),
       Property.mk "k" (.obj (Object.mk [] 9 11))]

/-- Claim C4: for an ObjectRoot tree, a query starting with `$` whose
second character is not `.` fails with the wrong-object-root-selector
error, and for an ArrayRoot tree one whose second character is not `[`
fails with the wrong-array-root-selector error — through `prepareQuery`
for an arbitrary scanner, so the failure happens before (and without) any
query tokenization. -/
theorem claim_C4_root_selector_mismatch
    (scan : List Char → Except PrepError (List QueryToken))
    (c1 : Char) (rest : List Char) :
    (c1 ≠ '.' → prepareQuery scan ('$' :: c1 :: rest) .objectRoot
      = .error .errWrongObjectRootSelector)
    ∧ (c1 ≠ '[' → prepareQuery scan ('$' :: c1 :: rest) .arrayRoot
      = .error .errWrongArrayRootSelector) := by
  constructor
  · intro hdot
    rw [prepareQuery, validateQueryRoot]
    simp [hdot]
  · intro hbr
    rw [prepareQuery, validateQueryRoot]
    simp [hbr]

/-- Witness for claim C4 at a concrete input: the query `$x` fails with the
matching root-selector error against either root type, for a trivial
scanner. -/
theorem claim_C4_witness :
    prepareQuery (fun _ => .ok []) ['$', 'x'] .objectRoot
      = .error .errWrongObjectRootSelector
    ∧ prepareQuery (fun _ => .ok []) ['$', 'x'] .arrayRoot
      = .error .errWrongArrayRootSelector :=
  ⟨(claim_C4_root_selector_mismatch (fun _ => .ok []) 'x' []).1 (by decide),
   (claim_C4_root_selector_mismatch (fun _ => .ok []) 'x' []).2 (by decide)⟩

/-- Claim C10: for every input list of structural items, the merge
collaborator's `stripWhiteSpace` returns the empty list — the loop's
shadowing index variable leaves the function-level index at zero, so the
returned slice `structuralItems[0:0]` preserves nothing, in particular no
leading non-whitespace item. -/
theorem claim_C10_stripWhiteSpace_empty (structuralItems : List StructuralItem) :
    stripWhiteSpace structuralItems = [] := rfl

lemma mapInsert_keys_mem (m : List (String × GType)) (k : String) (v : GType)
    (a : String) :
    a ∈ (mapInsert m k v).map Prod.fst ↔ a ∈ m.map Prod.fst ∨ a = k := by
  induction m with
  | nil => simp [mapInsert]
  | cons kv rest ih =>
    obtain ⟨k1, v1⟩ := kv
    by_cases hk : k1 = k
    · subst hk
      simp [mapInsert]
      tauto
    · simp [mapInsert, hk, ih]
      tauto

lemma mapInsert_keys_nodup (m : List (String × GType)) (k : String) (v : GType)
    (h : (m.map Prod.fst).Nodup) : ((mapInsert m k v).map Prod.fst).Nodup := by
  induction m with
  | nil => simp [mapInsert]
  | cons kv rest ih =>
    obtain ⟨k1, v1⟩ := kv
    simp only [List.map_cons, List.nodup_cons] at h
    by_cases hk : k1 = k
    · subst hk
      simpa [mapInsert] using h
    · simp only [mapInsert, if_neg hk, List.map_cons, List.nodup_cons]
      refine ⟨?_, ih h.2⟩
      rw [mapInsert_keys_mem]
      rintro (hmem | rfl)
      · exact h.1 hmem
      · exact hk rfl

lemma foldInsert_keys_mem (ps : List (String × GType))
    (m : List (String × GType)) (a : String) :
    a ∈ ((ps.foldl (fun m p => mapInsert m p.1 p.2) m).map Prod.fst)
      ↔ a ∈ m.map Prod.fst ∨ a ∈ ps.map Prod.fst := by
  induction ps generalizing m with
  | nil => simp
  | cons p rest ih =>
    simp only [List.foldl_cons, ih, mapInsert_keys_mem, List.map_cons,
      List.mem_cons]
    tauto

lemma foldInsert_keys_nodup (ps : List (String × GType))
    (m : List (String × GType)) (h : (m.map Prod.fst).Nodup) :
    (((ps.foldl (fun m p => mapInsert m p.1 p.2) m)).map Prod.fst).Nodup := by
  induction ps generalizing m with
  | nil => exact h
  | cons p rest ih =>
    exact ih _ (mapInsert_keys_nodup m p.1 p.2 h)

lemma valuesGoType_eq_map (l : List Value) :
    valuesGoType l = l.map valueGoType := by
  induction l with
  | nil => rfl
  | cons v rest ih => rw [valuesGoType, ih, List.map_cons]

lemma propsGoType_keys (cs : List Property) :
    (propsGoType cs).map Prod.fst = cs.map Property.key := by
  induction cs with
  | nil => rfl
  | cons p rest ih =>
    obtain ⟨k, v⟩ := p
    rw [propsGoType, List.map_cons, List.map_cons, ih, Property.key]

/-- Claim C9: the recursive generic conversion (`GetObject` returning
`Value.GoType()`) maps a literal to its decoded native scalar value (the
dynamic `Value` field, not the source text), an array to the ordered list
of the generic conversions of its children, and an object to a
key-to-generic-value map with exactly one entry per distinct child key
(duplicate keys collapse through map assignment). -/
theorem claim_C9_generic_conversion :
    (∀ l : Literal, valueGoType (.lit l) = .prim l.value)
    ∧ (∀ (cs : List Value) (s e : Nat),
      valueGoType (.arr (.mk cs s e)) = .arrT (cs.map valueGoType))
    ∧ (∀ (cs : List Property) (s e : Nat),
      ∃ m : List (String × GType),
        valueGoType (.obj (.mk cs s e)) = .mapT m
        ∧ (m.map Prod.fst).Nodup
        ∧ (∀ k, k ∈ m.map Prod.fst ↔ k ∈ cs.map Property.key)) := by
  refine ⟨fun l => rfl, ?_, ?_⟩
  · intro cs s e
    rw [valueGoType, arrGoType, valuesGoType_eq_map]
  · intro cs s e
    refine ⟨buildMap (propsGoType cs), ?_, ?_, ?_⟩
    · rw [valueGoType, objectGoType]
    · exact foldInsert_keys_nodup (propsGoType cs) [] (by simp)
    · intro k
      rw [buildMap, foldInsert_keys_mem, propsGoType_keys]
      simp

/-- A state whose stored string result is the projection of its stored
terminal value. -/
def renderOk (input : List Char) (st : ExecState) : Prop :=
  ∀ v, st.resultValue = some v → st.result = render input v

lemma setResultFromValue_ok (input : List Char) (v : Value)
    (st st1 : ExecState) (h : setResultFromValue input v st = .ok st1) :
    st1.result = render input v ∧ st1.resultValue = some v
    ∧ st1.obj = st.obj ∧ st1.arr = st.arr
    ∧ st1.currentType = st.currentType := by
  cases v with
  | lit l =>
    simp only [setResultFromValue, Except.ok.injEq] at h
    subst h
    exact ⟨rfl, rfl, rfl, rfl, rfl⟩
  | obj o =>
    simp only [setResultFromValue] at h
    cases hs : goSlice input o.start o.stop with
    | error e => rw [hs] at h; simp at h
    | ok s =>
      rw [hs] at h
      simp only [Except.ok.injEq] at h
      subst h
      rw [goSlice] at hs
      by_cases hc : o.start ≤ o.stop ∧ o.stop ≤ input.length
      · rw [if_pos hc] at hs
        simp only [Except.ok.injEq] at hs
        subst hs
        exact ⟨rfl, rfl, rfl, rfl, rfl⟩
      · rw [if_neg hc] at hs
        simp at hs
  | arr a =>
    simp only [setResultFromValue] at h
    cases hs : goSlice input a.start a.stop with
    | error e => rw [hs] at h; simp at h
    | ok s =>
      rw [hs] at h
      simp only [Except.ok.injEq] at h
      subst h
      rw [goSlice] at hs
      by_cases hc : a.start ≤ a.stop ∧ a.stop ≤ input.length
      · rw [if_pos hc] at hs
        simp only [Except.ok.injEq] at hs
        subst hs
        exact ⟨rfl, rfl, rfl, rfl, rfl⟩
      · rw [if_neg hc] at hs
        simp at hs

lemma renderOk_of_setResultFromValue (input : List Char) (v : Value)
    (st st1 : ExecState) (h : setResultFromValue input v st = .ok st1) :
    renderOk input st1 := by
  obtain ⟨h1, h2, _⟩ := setResultFromValue_ok input v st st1 h
  intro w hw
  rw [h2, Option.some.injEq] at hw
  subst hw
  exact h1

lemma renderOk_of_setFinalValue (input : List Char) (t : QueryToken)
    (st st1 : ExecState) (hok : renderOk input st)
    (h : setFinalValue input t st = .ok st1) : renderOk input st1 := by
  rw [setFinalValue] at h
  by_cases hct : st.currentType = .objectType
  · rw [if_pos hct] at h
    cases hfind : st.obj.children.find? (fun v => decide (t.key = v.key)) with
    | some p =>
      rw [hfind] at h
      exact renderOk_of_setResultFromValue input p.value st st1 h
    | none =>
      rw [hfind] at h
      simp only [Except.ok.injEq] at h
      subst h
      exact hok
  · rw [if_neg hct] at h
    cases hget : st.arr.children[t.index]? with
    | none => rw [hget] at h; simp at h
    | some v =>
      rw [hget] at h
      exact renderOk_of_setResultFromValue input v st st1 h

lemma execStep_renderOk (input : List Char) (t : QueryToken) (isLast : Bool)
    (st st1 : ExecState) (hok : renderOk input st)
    (h : execStep input t isLast st = .ok st1) : renderOk input st1 := by
  rw [execStep] at h
  cases hfin : (if isLast then setFinalValue input t st else .ok st) with
  | error e => rw [hfin] at h; simp at h
  | ok stA =>
    rw [hfin] at h
    have hA : renderOk input stA := by
      cases isLast with
      | true =>
        rw [if_pos rfl] at hfin
        exact renderOk_of_setFinalValue input t st stA hok hfin
      | false =>
        rw [if_neg (by simp)] at hfin
        simp only [Except.ok.injEq] at hfin
        subst hfin
        exact hok
    cases hacc : t.accessType with
    | objectAccess =>
      by_cases hct : stA.currentType = .objectType
      · match hscan : objScan t.key stA.obj.children with
        | (false, upd) => simp [hacc, hct, hscan] at h
        | (true, none) =>
          simp only [hacc, hct, hscan] at h
          simp only [if_pos, Except.ok.injEq] at h
          subst h
          exact hA
        | (true, some (.inl o)) =>
          simp only [hacc, hct, hscan] at h
          simp only [if_pos, Except.ok.injEq] at h
          subst h
          exact hA
        | (true, some (.inr a)) =>
          simp only [hacc, hct, hscan] at h
          simp only [if_pos, Except.ok.injEq] at h
          subst h
          exact hA
      · simp [hacc, if_neg hct] at h
    | arrayAccess =>
      by_cases hct : stA.currentType = .arrayType
      · cases hget : stA.arr.children[t.index]? with
        | none => simp [hacc, hct, hget] at h
        | some v =>
          cases v with
          | obj o =>
            simp only [hacc, hct, hget] at h
            simp only [if_pos, Except.ok.injEq] at h
            subst h
            exact hA
          | arr a =>
            simp only [hacc, hct, hget] at h
            simp only [if_pos, Except.ok.injEq] at h
            subst h
            exact hA
          | lit l =>
            cases isLast with
            | true =>
              simp only [hacc, hct, hget] at h
              simp only [if_pos, if_true] at h
              exact renderOk_of_setResultFromValue input (.lit l) stA st1 h
            | false =>
              simp [hacc, hct, hget] at h
      · simp [hacc, if_neg hct] at h

lemma execLoop_renderOk (input : List Char) :
    ∀ (tokens : List QueryToken) (st stF : ExecState),
      renderOk input st → execLoop input tokens st = .ok stF →
      renderOk input stF := by
  intro tokens
  induction tokens with
  | nil =>
    intro st stF hok h
    rw [execLoop] at h
    simp only [Except.ok.injEq] at h
    subst h
    exact hok
  | cons t rest ih =>
    intro st stF hok h
    rw [execLoop] at h
    cases hstep : execStep input t rest.isEmpty st with
    | error e => rw [hstep] at h; simp at h
    | ok st1 =>
      rw [hstep] at h
      exact ih st1 stF
        (execStep_renderOk input t rest.isEmpty st st1 hok hstep) h

/-- Claim C8: for every successful query, the stored terminal value is the
value resolved on the final token with no further narrowing, and its string
form is the verbatim `[start, end)` slice of the original source buffer
when the terminal value is an object or an array and the canonical textual
rendering when it is a literal. Left conjunct: on success, the client's
`result` string is exactly the `render` projection of the stored terminal
`resultValue`. Right conjunct: `setResultFromValue` stores the resolved
value itself, container or not, and leaves the cursor untouched — no
further narrowing. -/
theorem claim_C8_result_projection :
    (∀ (input : List Char) (rootValue : Value) (tokens : List QueryToken)
        (st : ExecState) (v : Value),
      executeQuery input rootValue tokens = .ok st →
      st.resultValue = some v → st.result = render input v)
    ∧ (∀ (input : List Char) (v : Value) (st st1 : ExecState),
      setResultFromValue input v st = .ok st1 →
      st1.resultValue = some v ∧ st1.obj = st.obj ∧ st1.arr = st.arr
      ∧ st1.currentType = st.currentType) := by
  constructor
  · intro input rootValue tokens st v hexec hrv
    rw [executeQuery] at hexec
    have hinit : renderOk input (initState rootValue) := by
      intro w hw
      simp [initState] at hw
    exact execLoop_renderOk input tokens (initState rootValue) st hinit hexec v hrv
  · intro input v st st1 h
    obtain ⟨_, h2, h3, h4, h5⟩ := setResultFromValue_ok input v st st1 h
    exact ⟨h2, h3, h4, h5⟩

/-- Witness for claim C8 at a concrete input: the query `$.a` against the
object `{"a": "x"}` (source buffer "ab", spans chosen small)
succeeds, stores the literal terminal value, and renders it canonically;
and `setResultFromValue` on a concrete object value stores it unchanged. -/
theorem claim_C8_witness :
    (⟨Object.mk [Property.mk "a" (.lit ⟨.str "x"⟩)] 0 2, Arr.mk [] 0 0,
        .objectType, "x", some (.lit ⟨.str "x"⟩)⟩ : ExecState).result
      = render ['a', 'b'] (.lit ⟨.str "x"⟩)
    ∧ (⟨Object.mk [] 0 0, Arr.mk [] 0 0, .objectType, "a",
        some (.obj (Object.mk [] 0 1))⟩ : ExecState).resultValue
      = some (.obj (Object.mk [] 0 1)) := by
  constructor
  · exact claim_C8_result_projection.1 ['a', 'b']
      (.obj (Object.mk [Property.mk "a" (.lit ⟨.str "x"⟩)] 0 2))
      [⟨.objectAccess, "a", 0⟩]
      ⟨Object.mk [Property.mk "a" (.lit ⟨.str "x"⟩)] 0 2, Arr.mk [] 0 0,
        .objectType, "x", some (.lit ⟨.str "x"⟩)⟩
      (.lit ⟨.str "x"⟩) rfl rfl
  · exact (claim_C8_result_projection.2 ['a', 'b'] (.obj (Object.mk [] 0 1))
      ⟨Object.mk [] 0 0, Arr.mk [] 0 0, .objectType, "", none⟩
      ⟨Object.mk [] 0 0, Arr.mk [] 0 0, .objectType, "a",
        some (.obj (Object.mk [] 0 1))⟩ rfl).1

end Dora
